import Mathlib

/-!
  Shallow embedding of the file_bundler single-header library
  (src/file_bundler.h) and verification of the frozen claims about it.

  Modelling conventions:
  * std uint64 values are Nat; arithmetic the source performs on uint64
    operands carries an explicit mod by U64 where the source could wrap.
  * std string and raw byte buffers are lists of Nat (one entry per byte).
  * The dual backend streams (raw memory region, growable std vector,
    std fstream) are explicit state values; reads and writes are pure state
    transformers translated branch by branch from Input_Stream::read,
    Input_Stream::seekg and Output_Stream::write.
  * Filesystem side effects of debundling (directory creation, append mode
    file writes) are collected in an explicit effect trace, in program order.
-/

namespace file_bundler

/-- Size of the uint64 value space. Header fields, declared sizes and stream
counters in the source are std uint64 values, so arithmetic on them is taken
modulo this constant wherever the source could wrap. -/
def U64 : Nat := 18446744073709551616

/-- Little endian byte image of a uint64 value, as produced when the source
writes a std uint64 through a raw byte write (native byte order; the format
examples in the specification assume a little endian target). -/
def le64 (n : Nat) : List Nat :=
  (List.range 8).map (fun i => n / 256 ^ i % 256)

/-- Value of a little endian uint64 byte image, as recovered when the source
reads raw bytes back into a std uint64 variable. -/
def de64 (bs : List Nat) : Nat :=
  ((List.range 8).map (fun i => bs.getD i 0 * 256 ^ i)).sum

/-- Embeds file_bundler::File: a name (std string kept as raw bytes), a
declared size (uint64) and an owned payload buffer (std vector of bytes). -/
structure File where
  name : List Nat
  size : Nat
  bytes : List Nat
  deriving DecidableEq

/-- Embeds file_bundler::_::Header_Metadata: the three uint64 section sizes
written as the first 24 bytes of every bundle. -/
structure Header_Metadata where
  names_section_size : Nat
  sizes_section_size : Nat
  files_section_size : Nat
  deriving DecidableEq

/-- Input side of the stream abstraction (Base_Stream plus Input_Stream).
A memory backed stream is a byte buffer with a read offset (the raw memory
and std vector cases behave identically on the read path). A file backed
stream is the byte contents of the underlying file, the read position, and
whether the std fstream is in a failed state (open failure, or failbit after
a short read). -/
inductive Input_Stream
  | memory (data : List Nat) (current_offset : Nat)
  | file (contents : List Nat) (pos : Nat) (failed : Bool)
  deriving DecidableEq

/-- Embeds Input_Stream::read. The argument buf holds the current contents of
the destination buffer (the source reads into caller memory); the result is
the destination buffer after the read, together with the updated stream.
Memory backend: when current_offset + size (uint64 arithmetic) reaches or
exceeds the end of the backing memory the function returns without copying
and without advancing the offset, otherwise it copies and advances.
File backend: a failed std fstream extracts nothing; a read that fits is
served in full; a read past end of file delivers the available bytes into the
front of the destination buffer and sets the fail state. -/
def Input_Stream.read (s : Input_Stream) (buf : List Nat) : List Nat × Input_Stream :=
  match s with
  | Input_Stream.memory data current_offset =>
    if (current_offset + buf.length) % U64 ≥ data.length then (buf, s)
    else ((data.drop current_offset).take buf.length,
          Input_Stream.memory data ((current_offset + buf.length) % U64))
  | Input_Stream.file contents pos failed =>
    if failed then (buf, s)
    else if pos + buf.length ≤ contents.length then
      ((contents.drop pos).take buf.length, Input_Stream.file contents (pos + buf.length) failed)
    else
      ((contents.drop pos).take buf.length ++ buf.drop (contents.length - pos),
       Input_Stream.file contents contents.length true)

/-- Embeds Input_Stream::seekg: a memory backed stream moves only when the
target offset is at most the buffer size; a file backed stream repositions
unless it is in a failed state. -/
def Input_Stream.seekg (s : Input_Stream) (p_offset : Nat) : Input_Stream :=
  match s with
  | Input_Stream.memory data _ =>
    if p_offset ≤ data.length then Input_Stream.memory data p_offset else s
  | Input_Stream.file contents _ failed =>
    if failed then s else Input_Stream.file contents p_offset failed

/-- Length of the backing byte store of an input stream; used only to size the
fuel of the name reading loop (see readNameLoop). -/
def Input_Stream.srcLen : Input_Stream → Nat
  | Input_Stream.memory data _ => data.length
  | Input_Stream.file contents _ _ => contents.length

/-- One byte read into a caller variable currently holding dflt (the variable
keeps its old value when the read transfers nothing). -/
def read1 (s : Input_Stream) (dflt : Nat) : Nat × Input_Stream :=
  let r := s.read [dflt]
  (r.fst.headD dflt, r.snd)

/-- Backend of an output stream: raw caller owned memory region (fixed
capacity, writes beyond it are undefined in the source and dropped here,
which is never reached by the bundler code paths), growable std vector, or
append mode file (the list holds the bytes written through this stream). -/
inductive Out_Backend
  | memory (buf : List Nat)
  | vector (buf : List Nat)
  | file (contents : List Nat)
  deriving DecidableEq

/-- Byte store currently held by an output backend. -/
def Out_Backend.buf : Out_Backend → List Nat
  | Out_Backend.memory b => b
  | Out_Backend.vector b => b
  | Out_Backend.file c => c

/-- Embeds _::Output_Stream: a backend, the stream file name (empty unless the
file overload of open was used), the write offset and the monotone total byte
counter that is reported as the size of a produced bundle. -/
structure Output_Stream where
  backend : Out_Backend
  file_name : List Nat
  current_offset : Nat
  total_bytes_written : Nat
  deriving DecidableEq

/-- Overwrite bytes of buf starting at offset off with data, one byte at a
time (the memcpy of Output_Stream::write); bytes falling outside buf are
dropped, a case the bundler never reaches (it would be undefined behavior in
the source). -/
def listStore : List Nat → Nat → List Nat → List Nat
  | buf, _, [] => buf
  | buf, off, b :: bs => listStore (buf.set off b) (off + 1) bs

/-- Embeds Output_Stream::write. Memory region: plain copy at the offset.
Vector: when current_offset + size (uint64 arithmetic) exceeds the current
vector size, the vector is resized by exactly size zero initialized bytes
(grow to fit) before the copy. File: bytes are appended to the file. In every
case the total byte counter grows by the write size. -/
def Output_Stream.write (s : Output_Stream) (data : List Nat) : Output_Stream :=
  match s.backend with
  | Out_Backend.memory buf =>
    { s with backend := Out_Backend.memory (listStore buf s.current_offset data),
             current_offset := (s.current_offset + data.length) % U64,
             total_bytes_written := (s.total_bytes_written + data.length) % U64 }
  | Out_Backend.vector buf =>
    let grown := if (s.current_offset + data.length) % U64 > buf.length
                 then buf ++ List.replicate data.length 0 else buf
    { s with backend := Out_Backend.vector (listStore grown s.current_offset data),
             current_offset := (s.current_offset + data.length) % U64,
             total_bytes_written := (s.total_bytes_written + data.length) % U64 }
  | Out_Backend.file contents =>
    { s with backend := Out_Backend.file (contents ++ data),
             total_bytes_written := (s.total_bytes_written + data.length) % U64 }

/-- Embeds Output_Stream::get_total_bytes_written. -/
def Output_Stream.get_total_bytes_written (s : Output_Stream) : Nat :=
  s.total_bytes_written

/-- Embeds Base_Stream::get_file_name (empty unless a file stream). -/
def Output_Stream.get_file_name (s : Output_Stream) : List Nat :=
  s.file_name

/-- Fresh output stream over a growable std vector, as built by
Output_Stream(&buffer, buffer.size()) on an empty buffer; stated for any
aligned buffer because the append lemmas below step through such states. -/
def vectored (buf : List Nat) : Output_Stream :=
  ⟨Out_Backend.vector buf, [], buf.length, buf.length⟩

/-- Fresh output stream over a file opened for binary append, as built by
Output_Stream(path, out | binary | app); the contents list collects the bytes
appended through this stream. -/
def filed (path : List Nat) : Output_Stream :=
  ⟨Out_Backend.file [], path, 0, 0⟩

/-- One loop iteration of the header accumulation pass of bundle: uint64
additions of the name size plus terminator, one size slot, and the declared
file size. -/
def headerStep (m : Header_Metadata) (f : File) : Header_Metadata :=
  ⟨(m.names_section_size + (f.name.length + 1)) % U64,
   (m.sizes_section_size + 8) % U64,
   (m.files_section_size + f.size) % U64⟩

/-- Header metadata accumulated by the first pass of bundle. -/
def headerMeta (p_files : List File) : Header_Metadata :=
  p_files.foldl headerStep ⟨0, 0, 0⟩

/-- Embeds file_bundler::bundle(p_output_stream, p_files, p_from_memory) at
p_from_memory = true, the in memory payload path every claim uses: first pass
accumulates the header, then the header block, each name with its zero
terminator, each declared size, and each payload buffer are written in input
order. The returned package is File(stream file name, total bytes written).
The disk payload path (p_from_memory = false) instead copies each named file
byte by byte through a per file input stream and is not needed by the claims. -/
def bundle (p_output_stream : Output_Stream) (p_files : List File) : File × Output_Stream :=
  let metadata := headerMeta p_files
  let s1 := p_output_stream.write
    (le64 metadata.names_section_size ++ le64 metadata.sizes_section_size ++
      le64 metadata.files_section_size)
  let s2 := p_files.foldl (fun s f => s.write (f.name ++ [0])) s1
  let s3 := p_files.foldl (fun s f => s.write (le64 f.size)) s2
  let s4 := p_files.foldl (fun s f => s.write f.bytes) s3
  (⟨s4.get_file_name, s4.get_total_bytes_written, []⟩, s4)

/-- Embeds the memory to memory entry point bundle(p_files): bundle into a
fresh vector stream, then move the buffer into the returned package. -/
def bundleToMemory (p_files : List File) : File :=
  let r := bundle (vectored []) p_files
  { r.fst with bytes := r.snd.backend.buf }

/-- Filesystem side effects of debundling, in program order. createDirs is the
fs create_directories call; appendFile records that a file was opened at the
given path with openmode out, binary and app, and the given bytes were then
written through it. -/
inductive FsEffect
  | createDirs (path : List Nat)
  | appendFile (path : List Nat) (data : List Nat)
  deriving DecidableEq

/-- Body of the name reading loop of debundle: read one byte at a time into
the current char (which keeps its previous value when the read transfers
nothing) and append every byte read, including the zero terminator, until the
current char is zero. The loop in the source has no other exit, so it spins
forever when the stream stops producing bytes before a zero byte arrives; the
fuel argument (sized past every terminating run) makes the model total, and
the fuel exhausted branch stands for that divergence. -/
def readNameLoop : Nat → Nat → List Nat → Input_Stream → List Nat × Input_Stream
  | 0, _, acc, s => (acc, s)
  | fuel + 1, c, acc, s =>
    if c = 0 then (acc, s)
    else
      let r := read1 s c
      readNameLoop fuel r.fst (acc ++ [r.fst]) r.snd

/-- Read file_count zero terminated names in order (outer name loop of
debundle). -/
def readName (s : Input_Stream) : List Nat × Input_Stream :=
  readNameLoop (s.srcLen + 2) 127 [] s

def readNames : Nat → Input_Stream → List (List Nat) × Input_Stream
  | 0, s => ([], s)
  | n + 1, s =>
    let r := readName s
    let rest := readNames n r.snd
    (r.fst :: rest.fst, rest.snd)

/-- Read file_count uint64 sizes in order (size loop of debundle); the stack
variable being read into starts at zero, so a no op read yields zero. -/
def readSizes : Nat → Input_Stream → List Nat × Input_Stream
  | 0, s => ([], s)
  | n + 1, s =>
    let r := s.read (List.replicate 8 0)
    let rest := readSizes n r.snd
    (de64 r.fst :: rest.fst, rest.snd)

/-- Scan of the directory splitting loop of debundle: walk the name indices
from high down to 1 (index 0 is never inspected) and return the first index
holding a forward or back slash. -/
def sepSearch (name : List Nat) : Nat → Option Nat
  | 0 => none
  | i + 1 =>
    if name.getD (i + 1) 0 = 47 ∨ name.getD (i + 1) 0 = 92 then some (i + 1)
    else sepSearch name i

/-- The original_path a debundle iteration derives from a name: the prefix up
to the last path separator, empty when none is found. -/
def original_path_of (name : List Nat) : List Nat :=
  match sepSearch name (name.length - 1) with
  | some i => name.take i
  | none => []

/-- Directory creation effects of the preparation loop of debundle, one
create_directories call at output_directory / original_path for every name
with a nonempty original_path. -/
def createDirEffects (p_output_directory : List Nat) : List (List Nat) → List FsEffect
  | [] => []
  | name :: rest =>
    let p := original_path_of name
    if p.length ≠ 0 then
      FsEffect.createDirs (p_output_directory ++ [47] ++ p) :: createDirEffects p_output_directory rest
    else createDirEffects p_output_directory rest

/-- Byte by byte copy loop of debundle (and of the disk path of bundle): each
iteration reads one byte into a char initialized to CHAR_MAX = 127 and writes
that char to the output stream, so a read that transfers nothing writes 127. -/
def copyLoop : Nat → Input_Stream → Output_Stream → Input_Stream × Output_Stream
  | 0, s, o => (s, o)
  | n + 1, s, o =>
    let r := read1 s 127
    copyLoop n r.snd (o.write [r.fst])

/-- Extraction loop of debundle over the parsed (name, size) pairs. To memory:
the payload buffer of the pushed File record is resized to the declared size
(zero filled) and written through a raw memory output stream. To disk: an
output stream is opened at the parsed name with openmode out, binary and app,
and the copied bytes are recorded as an appendFile effect; the File record
keeps an empty payload. -/
def extractLoop (p_to_memory : Bool) :
    List (List Nat × Nat) → Input_Stream → List File × List FsEffect × Input_Stream
  | [], s => ([], [], s)
  | (file_name, file_size) :: rest, s =>
    if p_to_memory then
      let out0 : Output_Stream := ⟨Out_Backend.memory (List.replicate file_size 0), [], 0, 0⟩
      let step := copyLoop file_size s out0
      let r := extractLoop p_to_memory rest step.fst
      (⟨file_name, file_size, step.snd.backend.buf⟩ :: r.fst, r.snd.fst, r.snd.snd)
    else
      let out0 : Output_Stream := ⟨Out_Backend.file [], file_name, 0, 0⟩
      let step := copyLoop file_size s out0
      let r := extractLoop p_to_memory rest step.fst
      (⟨file_name, file_size, []⟩ :: r.fst,
       FsEffect.appendFile file_name step.snd.backend.buf :: r.snd.fst, r.snd.snd)

/-- Embeds the core file_bundler::debundle(p_input_stream, p_output_directory,
p_to_memory): read the 24 byte header (the Header_Metadata struct the source
reads into is zero initialized, so a no op read leaves all sizes zero), derive
file_count = sizes_section_size / 8, seek to the names section offset 24, read
the names and sizes, run the directory preparation loop (whose body the source
guards with a break when p_to_memory is false, so it acts only when extracting
to memory), then extract every file. The source also computes sizes and files
section offsets that are never used (the corresponding seekg calls are
commented out); they are omitted. Returns the extracted files and the
filesystem effect trace in program order. -/
def debundle (p_input_stream : Input_Stream) (p_output_directory : List Nat)
    (p_to_memory : Bool) : List File × List FsEffect :=
  let h := p_input_stream.read (List.replicate 24 0)
  let metadata : Header_Metadata :=
    ⟨de64 (h.fst.take 8), de64 ((h.fst.drop 8).take 8), de64 ((h.fst.drop 16).take 8)⟩
  let number_of_bundled_files := metadata.sizes_section_size / 8
  let s2 := h.snd.seekg 24
  let nr := readNames number_of_bundled_files s2
  let sr := readSizes number_of_bundled_files nr.snd
  let dir_effects := if p_to_memory then createDirEffects p_output_directory nr.fst else []
  let er := extractLoop p_to_memory (nr.fst.zip sr.fst) sr.snd
  (er.fst, dir_effects ++ er.snd.fst)

/-- Embeds debundle(p_bundle_address, p_bundle_size): memory to memory. -/
def debundleMemToMem (p_bundle : List Nat) : List File :=
  (debundle (Input_Stream.memory p_bundle 0) [] true).fst

/-- Embeds debundle(p_bundle_address, p_bundle_size, p_output_directory):
memory to disk; also returns the filesystem effect trace. -/
def debundleMemToDisk (p_bundle : List Nat) (p_output_directory : List Nat) :
    List File × List FsEffect :=
  debundle (Input_Stream.memory p_bundle 0) p_output_directory false

/-- Input stream produced by Input_Stream(file_name, in | binary) against an
abstract disk (a map from path to contents): an existing file opens at
position zero, a missing one leaves the fstream in a failed state. -/
def openFileStream (disk : List Nat → Option (List Nat)) (path : List Nat) : Input_Stream :=
  match disk path with
  | some c => Input_Stream.file c 0 false
  | none => Input_Stream.file [] 0 true

/-- Embeds debundle(p_bundle_path): disk to memory, over an abstract disk. -/
def debundleDiskToMem (disk : List Nat → Option (List Nat)) (p_bundle_path : List Nat) :
    List File :=
  (debundle (openFileStream disk p_bundle_path) [] true).fst

/-- Embeds the package dispatch entry point debundle(p_package): nonempty
payload buffer debundles from that memory, otherwise a nonempty name
debundles from the file of that name, otherwise an empty list is returned. -/
def debundlePackage (disk : List Nat → Option (List Nat)) (p_package : File) : List File :=
  if p_package.bytes.length > 0 then debundleMemToMem p_package.bytes
  else if p_package.name.length ≠ 0 then debundleDiskToMem disk p_package.name
  else []

/-- Embeds File::set_size: stores the size, leaves the payload untouched. -/
def File.set_size (f : File) (p_file_size : Nat) : File :=
  { f with size := p_file_size }

/-- Embeds File::set_name. -/
def File.set_name (f : File) (p_file_name : List Nat) : File :=
  { f with name := p_file_name }

/-- Embeds the vector overload File::set_bytes(std vector): stores the bytes,
leaves the size field untouched. -/
def File.set_bytes (f : File) (p_bytes : List Nat) : File :=
  { f with bytes := p_bytes }

/-- Embeds the pointer overload File::set_bytes(p_address, p_size): the block
argument stands for the p_size bytes at p_address; the size is set to the
block length and the payload buffer becomes a copy of the block. -/
def File.set_bytes_mem (f : File) (p_block : List Nat) : File :=
  { f with size := p_block.length, bytes := p_block }

/-- Embeds File(p_file_name, p_address, p_size): delegates to the pointer
overload of set_bytes. -/
def File.mk_ptr (p_file_name : List Nat) (p_block : List Nat) : File :=
  File.set_bytes_mem ⟨p_file_name, 0, []⟩ p_block

/-- Embeds File(p_file_name, p_bytes): size is the vector length. -/
def File.mk_vec (p_file_name : List Nat) (p_bytes : List Nat) : File :=
  ⟨p_file_name, p_bytes.length, p_bytes⟩

/-- Embeds File(p_file_name, p_size): descriptor phase, no payload. -/
def File.mk_desc (p_file_name : List Nat) (p_size : Nat) : File :=
  ⟨p_file_name, p_size, []⟩

/-- Embeds File(): default constructed record. -/
def File.mk_empty : File := ⟨[], 0, []⟩

/-- The public mutators of File named by claim C9. -/
inductive FileOp
  | opSetSize (n : Nat)
  | opSetName (nm : List Nat)
  | opSetBytesVec (bs : List Nat)
  | opSetBytesMem (block : List Nat)
  deriving DecidableEq

/-- Apply one public mutator. -/
def applyOp (f : File) : FileOp → File
  | FileOp.opSetSize n => f.set_size n
  | FileOp.opSetName nm => f.set_name nm
  | FileOp.opSetBytesVec bs => f.set_bytes bs
  | FileOp.opSetBytesMem b => f.set_bytes_mem b

/-- Mutators that keep the size field and the payload buffer in step: set_name
and the pointer overload of set_bytes. set_size and the vector overload of
set_bytes update one side without the other. -/
def opSafe : FileOp → Bool
  | FileOp.opSetSize _ => false
  | FileOp.opSetBytesVec _ => false
  | _ => true

/-- Records built by one of the four public constructors of File. -/
inductive Constructed : File → Prop
  | viaPtr (nm block : List Nat) : Constructed (File.mk_ptr nm block)
  | viaVec (nm bs : List Nat) : Constructed (File.mk_vec nm bs)
  | viaDesc (nm : List Nat) (sz : Nat) : Constructed (File.mk_desc nm sz)
  | viaDefault : Constructed File.mk_empty

/-- The materialized phase invariant of the data model: a nonempty payload
buffer has exactly the declared size. -/
def FileInv (f : File) : Prop :=
  f.bytes ≠ [] → f.bytes.length = f.size

/-- Per file name chunks written by one bundle pass, concatenated in input
order; used to state the append lemmas about the three writing passes. -/
def chunks (g : File → List Nat) : List File → List Nat
  | [] => []
  | f :: fs => g f ++ chunks g fs

/-- Sum of name length plus one terminator over a file list (the names
section size of the specification). -/
def namesSum : List File → Nat
  | [] => 0
  | f :: fs => (f.name.length + 1) + namesSum fs

/-- Sum of declared sizes over a file list (the files section size of the
specification). -/
def filesSum : List File → Nat
  | [] => 0
  | f :: fs => f.size + filesSum fs

/-- Sum of payload buffer lengths over a file list (the bytes the in memory
payload pass actually writes). -/
def bytesSum : List File → Nat
  | [] => 0
  | f :: fs => f.bytes.length + bytesSum fs

/-- The byte image bundle produces for a file list: header block, then the
zero terminated names, the little endian sizes, and the payloads, in input
order. -/
def bundledBytes (p_files : List File) : List Nat :=
  le64 (headerMeta p_files).names_section_size ++
    le64 (headerMeta p_files).sizes_section_size ++
    le64 (headerMeta p_files).files_section_size ++
    chunks (fun f => f.name ++ [0]) p_files ++
    chunks (fun f => le64 f.size) p_files ++
    chunks (fun f => f.bytes) p_files

/-- Bundle byte list asserted by the example in the specification (claim C2),
transcribed verbatim: its first header field reads 2. -/
def specC2Bytes : List Nat :=
  [2, 0, 0, 0, 0, 0, 0, 0,
   8, 0, 0, 0, 0, 0, 0, 0,
   2, 0, 0, 0, 0, 0, 0, 0,
   120, 46, 116, 120, 116, 0,
   2, 0, 0, 0, 0, 0, 0, 0,
   104, 105]

/-- Bundle byte list the source actually produces for the example of claim
C2: identical to specC2Bytes except that the names section size field holds
6, the length of x.txt plus its terminator. -/
def packedC2Bytes : List Nat :=
  [6, 0, 0, 0, 0, 0, 0, 0,
   8, 0, 0, 0, 0, 0, 0, 0,
   2, 0, 0, 0, 0, 0, 0, 0,
   120, 46, 116, 120, 116, 0,
   2, 0, 0, 0, 0, 0, 0, 0,
   104, 105]

/-- Eight bytes per little endian uint64 image. -/
theorem le64_length (n : Nat) : (le64 n).length = 8 := by
  simp [le64]

/-- Taking exactly the length of the left part of an append returns it. -/
theorem take_len_append (l r : List Nat) (n : Nat) (h : l.length = n) :
    (l ++ r).take n = l := by
  subst h
  exact List.take_left l r

/-- Setting the element just past a front segment replaces the head of the
tail segment. -/
theorem set_at_front (l : List Nat) : ∀ (r : List Nat) (a b : Nat),
    (l ++ a :: r).set l.length b = l ++ b :: r := by
  induction l with
  | nil => intro r a b; rfl
  | cons x xs ih =>
    intro r a b
    show x :: ((xs ++ a :: r).set xs.length b) = x :: (xs ++ b :: r)
    rw [ih r a b]

/-- Storing data over a padding block of the same length placed after buf
yields buf followed by data. -/
theorem listStore_fill (data : List Nat) : ∀ (buf pad : List Nat),
    pad.length = data.length → listStore (buf ++ pad) buf.length data = buf ++ data := by
  induction data with
  | nil =>
    intro buf pad h
    have hp : pad = [] := List.length_eq_zero.mp h
    subst hp
    rfl
  | cons b bs ih =>
    intro buf pad h
    cases pad with
    | nil => simp at h
    | cons p ps =>
      have hps : ps.length = bs.length := by simpa using h
      show listStore ((buf ++ p :: ps).set buf.length b) (buf.length + 1) bs = buf ++ b :: bs
      rw [set_at_front buf ps p b]
      have h1 : buf ++ b :: ps = (buf ++ [b]) ++ ps := by simp
      have h2 : buf.length + 1 = (buf ++ [b]).length := by simp
      rw [h1, h2, ih (buf ++ [b]) ps hps]
      simp

/-- Writing to an aligned vector stream (offset and total equal to the buffer
length, as every bundler write leaves it) appends the data, provided the
uint64 counters do not wrap. -/
theorem write_vector_aligned (buf data : List Nat)
    (h : buf.length + data.length < U64) :
    (vectored buf).write data = vectored (buf ++ data) := by
  have hlt : buf.length < U64 := by omega
  cases data with
  | nil =>
    simp [vectored, Output_Stream.write, listStore, Nat.mod_eq_of_lt hlt]
  | cons b bs =>
    have hmod : (buf.length + (b :: bs).length) % U64 = buf.length + (b :: bs).length :=
      Nat.mod_eq_of_lt h
    simp only [vectored, Output_Stream.write, hmod]
    rw [if_pos (show buf.length + (b :: bs).length > buf.length by simp)]
    rw [listStore_fill (b :: bs) buf (List.replicate (b :: bs).length 0) (by simp)]
    simp

/-- Folding a write per file over an aligned vector stream appends the
concatenated chunks, provided the uint64 counters do not wrap. -/
theorem foldl_write_vector_g (g : File → List Nat) (files : List File) :
    ∀ buf : List Nat, buf.length + (chunks g files).length < U64 →
    files.foldl (fun s f => s.write (g f)) (vectored buf) = vectored (buf ++ chunks g files) := by
  induction files with
  | nil =>
    intro buf h
    simp [chunks]
  | cons f fs ih =>
    intro buf h
    have hlen : (chunks g (f :: fs)).length = (g f).length + (chunks g fs).length := by
      simp [chunks]
    rw [hlen] at h
    rw [List.foldl_cons, write_vector_aligned buf (g f) (by omega),
        ih (buf ++ g f) (by simp only [List.length_append]; omega)]
    simp [chunks]

/-- Names pass of bundle on an aligned vector stream. -/
theorem foldl_write_vector_names (files : List File) (buf : List Nat)
    (h : buf.length + (chunks (fun f => f.name ++ [0]) files).length < U64) :
    files.foldl (fun s f => s.write (f.name ++ [0])) (vectored buf) =
      vectored (buf ++ chunks (fun f => f.name ++ [0]) files) :=
  foldl_write_vector_g (fun f => f.name ++ [0]) files buf h

/-- Sizes pass of bundle on an aligned vector stream. -/
theorem foldl_write_vector_sizes (files : List File) (buf : List Nat)
    (h : buf.length + (chunks (fun f => le64 f.size) files).length < U64) :
    files.foldl (fun s f => s.write (le64 f.size)) (vectored buf) =
      vectored (buf ++ chunks (fun f => le64 f.size) files) :=
  foldl_write_vector_g (fun f => le64 f.size) files buf h

/-- Payload pass of bundle on an aligned vector stream. -/
theorem foldl_write_vector_payload (files : List File) (buf : List Nat)
    (h : buf.length + (chunks (fun f => f.bytes) files).length < U64) :
    files.foldl (fun s f => s.write f.bytes) (vectored buf) =
      vectored (buf ++ chunks (fun f => f.bytes) files) :=
  foldl_write_vector_g (fun f => f.bytes) files buf h

/-- A write to a file backed output stream appends to the file contents. -/
theorem write_file_state (c nm : List Nat) (off t : Nat) (data : List Nat) :
    Output_Stream.write ⟨Out_Backend.file c, nm, off, t⟩ data =
      ⟨Out_Backend.file (c ++ data), nm, off, (t + data.length) % U64⟩ := rfl

/-- Folding a write per file over a file backed output stream appends the
concatenated chunks; no side condition is needed on the contents. -/
theorem foldl_write_file_g (g : File → List Nat) (files : List File) :
    ∀ (c nm : List Nat) (off t : Nat), t < U64 →
    files.foldl (fun s f => s.write (g f)) (⟨Out_Backend.file c, nm, off, t⟩ : Output_Stream) =
      ⟨Out_Backend.file (c ++ chunks g files), nm, off, (t + (chunks g files).length) % U64⟩ := by
  induction files with
  | nil =>
    intro c nm off t ht
    simp [chunks, Nat.mod_eq_of_lt ht]
  | cons f fs ih =>
    intro c nm off t ht
    rw [List.foldl_cons, write_file_state,
        ih (c ++ g f) nm off ((t + (g f).length) % U64) (Nat.mod_lt _ (by simp [U64]))]
    rw [Nat.mod_add_mod (t + (g f).length) U64 (chunks g fs).length]
    simp [chunks, Nat.add_assoc]

/-- Names pass of bundle on a file backed output stream. -/
theorem foldl_write_file_names (files : List File) (c nm : List Nat) (off t : Nat)
    (ht : t < U64) :
    files.foldl (fun s f => s.write (f.name ++ [0])) (⟨Out_Backend.file c, nm, off, t⟩ : Output_Stream) =
      ⟨Out_Backend.file (c ++ chunks (fun f => f.name ++ [0]) files), nm, off,
        (t + (chunks (fun f => f.name ++ [0]) files).length) % U64⟩ :=
  foldl_write_file_g (fun f => f.name ++ [0]) files c nm off t ht

/-- Sizes pass of bundle on a file backed output stream. -/
theorem foldl_write_file_sizes (files : List File) (c nm : List Nat) (off t : Nat)
    (ht : t < U64) :
    files.foldl (fun s f => s.write (le64 f.size)) (⟨Out_Backend.file c, nm, off, t⟩ : Output_Stream) =
      ⟨Out_Backend.file (c ++ chunks (fun f => le64 f.size) files), nm, off,
        (t + (chunks (fun f => le64 f.size) files).length) % U64⟩ :=
  foldl_write_file_g (fun f => le64 f.size) files c nm off t ht

/-- Payload pass of bundle on a file backed output stream. -/
theorem foldl_write_file_payload (files : List File) (c nm : List Nat) (off t : Nat)
    (ht : t < U64) :
    files.foldl (fun s f => s.write f.bytes) (⟨Out_Backend.file c, nm, off, t⟩ : Output_Stream) =
      ⟨Out_Backend.file (c ++ chunks (fun f => f.bytes) files), nm, off,
        (t + (chunks (fun f => f.bytes) files).length) % U64⟩ :=
  foldl_write_file_g (fun f => f.bytes) files c nm off t ht

/-- The names chunks measure the names section size. -/
theorem chunks_names_length (files : List File) :
    (chunks (fun f => f.name ++ [0]) files).length = namesSum files := by
  induction files with
  | nil => rfl
  | cons f fs ih =>
    simp [chunks, namesSum, ih]
    omega

/-- The sizes chunks measure eight bytes per file. -/
theorem chunks_sizes_length (files : List File) :
    (chunks (fun f => le64 f.size) files).length = 8 * files.length := by
  induction files with
  | nil => rfl
  | cons f fs ih =>
    simp [chunks, le64_length, ih]
    omega

/-- The payload chunks measure the total payload length. -/
theorem chunks_payload_length (files : List File) :
    (chunks (fun f => f.bytes) files).length = bytesSum files := by
  induction files with
  | nil => rfl
  | cons f fs ih =>
    simp [chunks, bytesSum, ih]

/-- Total length of the byte image of a bundle. -/
theorem bundledBytes_length (files : List File) :
    (bundledBytes files).length =
      24 + namesSum files + 8 * files.length + bytesSum files := by
  simp [bundledBytes, le64_length, chunks_names_length, chunks_sizes_length,
        chunks_payload_length]
  omega

/-- Names component of the header accumulation loop, without wrap. -/
theorem headerFold_names (files : List File) : ∀ m : Header_Metadata,
    m.names_section_size + namesSum files < U64 →
    (files.foldl headerStep m).names_section_size = m.names_section_size + namesSum files := by
  induction files with
  | nil => intro m h; simp [namesSum]
  | cons f fs ih =>
    intro m h
    simp only [namesSum] at h
    have hmod : (m.names_section_size + (f.name.length + 1)) % U64 =
        m.names_section_size + (f.name.length + 1) := Nat.mod_eq_of_lt (by omega)
    rw [List.foldl_cons, ih (headerStep m f) (by simp only [headerStep, hmod]; omega)]
    simp only [headerStep, hmod, namesSum]
    omega

/-- Sizes component of the header accumulation loop, without wrap. -/
theorem headerFold_sizes (files : List File) : ∀ m : Header_Metadata,
    m.sizes_section_size + 8 * files.length < U64 →
    (files.foldl headerStep m).sizes_section_size = m.sizes_section_size + 8 * files.length := by
  induction files with
  | nil => intro m h; simp
  | cons f fs ih =>
    intro m h
    simp only [List.length_cons] at h
    have hmod : (m.sizes_section_size + 8) % U64 = m.sizes_section_size + 8 :=
      Nat.mod_eq_of_lt (by omega)
    rw [List.foldl_cons, ih (headerStep m f) (by simp only [headerStep, hmod]; omega)]
    simp only [headerStep, hmod, List.length_cons]
    omega

/-- Files component of the header accumulation loop, without wrap. -/
theorem headerFold_files (files : List File) : ∀ m : Header_Metadata,
    m.files_section_size + filesSum files < U64 →
    (files.foldl headerStep m).files_section_size = m.files_section_size + filesSum files := by
  induction files with
  | nil => intro m h; simp [filesSum]
  | cons f fs ih =>
    intro m h
    simp only [filesSum] at h
    have hmod : (m.files_section_size + f.size) % U64 = m.files_section_size + f.size :=
      Nat.mod_eq_of_lt (by omega)
    rw [List.foldl_cons, ih (headerStep m f) (by simp only [headerStep, hmod]; omega)]
    simp only [headerStep, hmod, filesSum]
    omega

/-- Names section size field of the header, without wrap. -/
theorem headerMeta_names (files : List File) (h : namesSum files < U64) :
    (headerMeta files).names_section_size = namesSum files := by
  simpa using headerFold_names files ⟨0, 0, 0⟩ (by simpa using h)

/-- Sizes section size field of the header, without wrap. -/
theorem headerMeta_sizes (files : List File) (h : 8 * files.length < U64) :
    (headerMeta files).sizes_section_size = 8 * files.length := by
  simpa using headerFold_sizes files ⟨0, 0, 0⟩ (by simpa using h)

/-- Files section size field of the header, without wrap. -/
theorem headerMeta_files (files : List File) (h : filesSum files < U64) :
    (headerMeta files).files_section_size = filesSum files := by
  simpa using headerFold_files files ⟨0, 0, 0⟩ (by simpa using h)

/-- For materialized records the payload pass writes exactly the declared
sizes. -/
theorem bytesSum_eq_filesSum (files : List File)
    (h : ∀ f ∈ files, f.bytes.length = f.size) : bytesSum files = filesSum files := by
  induction files with
  | nil => rfl
  | cons f fs ih =>
    simp only [bytesSum, filesSum]
    rw [h f (by simp), ih (fun g hg => h g (by simp [hg]))]

/-- Running bundle from a fresh vector stream produces exactly the bundle
byte image, both in the stream and in the reported package, provided the
total output stays below the uint64 wrap. -/
theorem bundle_vectored (files : List File)
    (hov : 24 + namesSum files + 8 * files.length + bytesSum files < U64) :
    bundle (vectored []) files =
      (⟨[], (bundledBytes files).length, []⟩, vectored (bundledBytes files)) := by
  have hc1 := chunks_names_length files
  have hc2 := chunks_sizes_length files
  have hc3 := chunks_payload_length files
  simp only [bundle]
  rw [write_vector_aligned, foldl_write_vector_names, foldl_write_vector_sizes,
      foldl_write_vector_payload]
  · rfl
  all_goals simp only [List.length_append, List.length_nil, le64_length, hc1, hc2, hc3]
  all_goals omega

/-- The memory to memory entry point packages the bundle byte image with its
length as the reported size. -/
theorem bundleToMemory_eq (files : List File)
    (hov : 24 + namesSum files + 8 * files.length + bytesSum files < U64) :
    bundleToMemory files = ⟨[], (bundledBytes files).length, bundledBytes files⟩ := by
  simp only [bundleToMemory]
  rw [bundle_vectored files hov]
  rfl

/-- Running bundle into a fresh append mode file stream writes exactly the
bundle byte image to the file, for any path and with no size restriction. -/
theorem bundle_filed_buf (files : List File) (path : List Nat) :
    (bundle (filed path) files).snd.backend.buf = bundledBytes files := by
  simp only [bundle, filed]
  rw [write_file_state, foldl_write_file_names, foldl_write_file_sizes,
      foldl_write_file_payload]
  · rfl
  all_goals exact Nat.mod_lt _ (by simp [U64])

/-- Every public constructor establishes the materialized phase invariant. -/
theorem constructed_inv (f : File) (h : Constructed f) : FileInv f := by
  cases h with
  | viaPtr nm block => intro _; rfl
  | viaVec nm bs => intro _; rfl
  | viaDesc nm sz => intro hne; exact absurd rfl hne
  | viaDefault => intro hne; exact absurd rfl hne

/-- The safe mutators preserve the materialized phase invariant. -/
theorem applyOp_inv (f : File) (op : FileOp) (hf : FileInv f) (hop : opSafe op = true) :
    FileInv (applyOp f op) := by
  cases op with
  | opSetSize n => simp [opSafe] at hop
  | opSetBytesVec bs => simp [opSafe] at hop
  | opSetName nm => intro hne; exact hf hne
  | opSetBytesMem b => intro _; rfl

/-- Any sequence of safe mutators preserves the materialized phase
invariant. -/
theorem foldl_applyOp_inv (ops : List FileOp) : ∀ f : File, FileInv f →
    (∀ op ∈ ops, opSafe op = true) → FileInv (ops.foldl applyOp f) := by
  induction ops with
  | nil => intro f hf _; exact hf
  | cons op rest ih =>
    intro f hf hops
    exact ih (applyOp f op) (applyOp_inv f op hf (hops op (by simp)))
      (fun o ho => hops o (by simp [ho]))

/-- Claim C1 (status code_bug): the round trip fails on the code. Packing the
single file named 0x61 with the one payload byte 0x05 and debundling the
produced bundle back to memory yields a file whose name carries the zero
terminator appended by the name reading loop and whose payload byte is 0x7F:
the final read of the bundle hits the end of buffer no op of
Input_Stream::read, so the CHAR_MAX default is written instead of the real
byte. The result differs from the packed input. -/
theorem claim_C1_roundtrip_violation :
    debundleMemToMem (bundleToMemory [⟨[97], 1, [5]⟩]).bytes = [⟨[97, 0], 1, [127]⟩] ∧
    debundleMemToMem (bundleToMemory [⟨[97], 1, [5]⟩]).bytes ≠ [⟨[97], 1, [5]⟩] := by
  decide

/-- Claim C2 (counterexample): the claim is false as stated. Packing the
example list does not produce the byte string of the specification example
(whose first header field reads 2 although x.txt plus terminator occupies 6
bytes), and debundling the example byte string does not return the file
x.txt with content hi. -/
theorem claim_C2_counterexample :
    ¬((bundleToMemory [⟨[120, 46, 116, 120, 116], 2, [104, 105]⟩]).bytes = specC2Bytes ∧
      debundleMemToMem specC2Bytes = [⟨[120, 46, 116, 120, 116], 2, [104, 105]⟩]) := by
  decide

/-- Claim C2 (amended): packing the example list produces the 40 byte bundle
whose names section size field holds 6 (not 2), and debundling that bundle to
memory yields one file whose name is x.txt followed by the zero terminator
and whose content is 0x68 0x7F, the final byte being replaced by the CHAR_MAX
default through the end of buffer no op read. -/
theorem claim_C2_amended_example :
    (bundleToMemory [⟨[120, 46, 116, 120, 116], 2, [104, 105]⟩]).bytes = packedC2Bytes ∧
    (bundleToMemory [⟨[120, 46, 116, 120, 116], 2, [104, 105]⟩]).size = 40 ∧
    debundleMemToMem packedC2Bytes = [⟨[120, 46, 116, 120, 116, 0], 2, [104, 127]⟩] := by
  decide

/-- Claim C3: for every list of in memory (materialized) files, the header
holds the three section sizes of the specification arithmetic, the reported
artifact byte count is 24 plus their sum, and the first 24 produced bytes are
exactly the three little endian size fields; stated under the materialized
phase hypothesis the claim quantifies over and a no uint64 wrap bound. -/
theorem claim_C3_header_arithmetic (files : List File)
    (hmat : ∀ f ∈ files, f.bytes.length = f.size)
    (hov : 24 + namesSum files + 8 * files.length + filesSum files < U64) :
    (headerMeta files).names_section_size = namesSum files ∧
    (headerMeta files).sizes_section_size = 8 * files.length ∧
    (headerMeta files).files_section_size = filesSum files ∧
    (bundleToMemory files).size = 24 + namesSum files + 8 * files.length + filesSum files ∧
    (bundleToMemory files).bytes.take 24 =
      le64 (namesSum files) ++ le64 (8 * files.length) ++ le64 (filesSum files) := by
  have hbf : bytesSum files = filesSum files := bytesSum_eq_filesSum files hmat
  have hov2 : 24 + namesSum files + 8 * files.length + bytesSum files < U64 := by omega
  refine ⟨headerMeta_names files (by omega), headerMeta_sizes files (by omega),
    headerMeta_files files (by omega), ?_, ?_⟩
  · rw [bundleToMemory_eq files hov2]
    simp [bundledBytes_length]
    omega
  · rw [bundleToMemory_eq files hov2]
    have hsplit : bundledBytes files =
        (le64 (headerMeta files).names_section_size ++
          le64 (headerMeta files).sizes_section_size ++
          le64 (headerMeta files).files_section_size) ++
        (chunks (fun f => f.name ++ [0]) files ++ chunks (fun f => le64 f.size) files ++
          chunks (fun f => f.bytes) files) := by
      simp [bundledBytes, List.append_assoc]
    show (bundledBytes files).take 24 = _
    rw [hsplit, take_len_append _ _ 24 (by simp [le64_length]),
        headerMeta_names files (by omega), headerMeta_sizes files (by omega),
        headerMeta_files files (by omega)]

/-- Claim C3 witness: the header arithmetic instantiated at the single
materialized file named 0x78 with the two payload bytes 0x68 0x69. -/
theorem claim_C3_witness :
    (headerMeta [⟨[120], 2, [104, 105]⟩]).names_section_size =
      namesSum [⟨[120], 2, [104, 105]⟩] ∧
    (headerMeta [⟨[120], 2, [104, 105]⟩]).sizes_section_size =
      8 * ([⟨[120], 2, [104, 105]⟩] : List File).length ∧
    (headerMeta [⟨[120], 2, [104, 105]⟩]).files_section_size =
      filesSum [⟨[120], 2, [104, 105]⟩] ∧
    (bundleToMemory [⟨[120], 2, [104, 105]⟩]).size =
      24 + namesSum [⟨[120], 2, [104, 105]⟩] +
        8 * ([⟨[120], 2, [104, 105]⟩] : List File).length +
        filesSum [⟨[120], 2, [104, 105]⟩] ∧
    (bundleToMemory [⟨[120], 2, [104, 105]⟩]).bytes.take 24 =
      le64 (namesSum [⟨[120], 2, [104, 105]⟩]) ++
        le64 (8 * ([⟨[120], 2, [104, 105]⟩] : List File).length) ++
        le64 (filesSum [⟨[120], 2, [104, 105]⟩]) :=
  claim_C3_header_arithmetic [⟨[120], 2, [104, 105]⟩] (by decide) (by decide)

/-- Claim C4 (status code_bug): extracting a bundle holding the file
a/b/c.txt to disk under the output directory out creates no directories at
all: the effect trace holds only the append mode open and write of the
payload, because the directory preparation loop of debundle breaks out
immediately when p_to_memory is false. The second conjunct shows the inverted
guard: the same bundle extracted to memory is the case that runs
create_directories (at out/a/b). -/
theorem claim_C4_no_directories_on_disk_extraction :
    (debundleMemToDisk
        (bundleToMemory [⟨[97, 47, 98, 47, 99, 46, 116, 120, 116], 1, [120]⟩]).bytes
        [111, 117, 116]).snd =
      [FsEffect.appendFile [97, 47, 98, 47, 99, 46, 116, 120, 116, 0] [127]] ∧
    (debundle
        (Input_Stream.memory
          (bundleToMemory [⟨[97, 47, 98, 47, 99, 46, 116, 120, 116], 1, [120]⟩]).bytes 0)
        [111, 117, 116] true).snd =
      [FsEffect.createDirs [111, 117, 116, 47, 97, 47, 98]] := by
  decide

/-- Claim C5 (status code_bug): extracting a bundle holding the file d/e.txt
to disk with output directory out opens the destination in append mode at the
parsed bundled name itself (which also carries the zero terminator kept by
the name reading loop), not at the output directory joined path, and writes
the declared size count of bytes through it (the single written byte is the
CHAR_MAX default because the final read hits the end of buffer no op). -/
theorem claim_C5_output_directory_ignored :
    (debundleMemToDisk
        (bundleToMemory [⟨[100, 47, 101, 46, 116, 120, 116], 1, [122]⟩]).bytes
        [111, 117, 116]).snd =
      [FsEffect.appendFile [100, 47, 101, 46, 116, 120, 116, 0] [127]] ∧
    ([FsEffect.appendFile [100, 47, 101, 46, 116, 120, 116, 0] [127]] : List FsEffect) ≠
      [FsEffect.appendFile ([111, 117, 116] ++ [47] ++ [100, 47, 101, 46, 116, 120, 116])
        [122]] := by
  decide

/-- Claim C6: on a memory backed byte source, a read whose end position
(uint64 arithmetic on offset plus count) reaches or exceeds the end of the
backing memory transfers no bytes (the destination buffer comes back
unchanged), leaves the read position unchanged, and does not fail. -/
theorem claim_C6_memory_read_noop (data : List Nat) (current_offset : Nat) (buf : List Nat)
    (h : (current_offset + buf.length) % U64 ≥ data.length) :
    (Input_Stream.memory data current_offset).read buf =
      (buf, Input_Stream.memory data current_offset) := by
  simp [Input_Stream.read, h]

/-- Claim C6 witness: reading one byte at offset 2 of a three byte source
ends exactly at the end of the memory and is a no op. -/
theorem claim_C6_witness :
    (2 + (List.length [0] : Nat)) % U64 ≥ (List.length ([1, 2, 3] : List Nat) : Nat) ∧
    (Input_Stream.memory [1, 2, 3] 2).read [0] = ([0], Input_Stream.memory [1, 2, 3] 2) :=
  ⟨by decide, claim_C6_memory_read_noop [1, 2, 3] 2 [0] (by decide)⟩

/-- Claim C7: packing the empty list produces exactly 24 bytes, all zero, so
all three little endian header size fields decode to zero, the reported size
is 24, and debundling the produced bundle to memory yields the empty file
list. -/
theorem claim_C7_zero_file_bundle :
    (bundleToMemory []).bytes = List.replicate 24 0 ∧
    (bundleToMemory []).size = 24 ∧
    de64 ((bundleToMemory []).bytes.take 8) = 0 ∧
    de64 (((bundleToMemory []).bytes.drop 8).take 8) = 0 ∧
    de64 (((bundleToMemory []).bytes.drop 16).take 8) = 0 ∧
    debundleMemToMem (bundleToMemory []).bytes = [] := by
  decide

/-- Claim C8: packing the same file list into two separate fresh sinks, a
growable memory vector and an append mode file at any path, writes byte
identical bundles: the produced bytes are a function of the input list alone
(stated under a no uint64 wrap bound on the total output size). -/
theorem claim_C8_pack_deterministic (files : List File) (path : List Nat)
    (hov : 24 + namesSum files + 8 * files.length + bytesSum files < U64) :
    (bundle (vectored []) files).snd.backend.buf =
      (bundle (filed path) files).snd.backend.buf := by
  rw [bundle_vectored files hov, bundle_filed_buf files path]
  rfl

/-- Claim C8 witness: the two sinks agree on the single file named 0x61 with
the one payload byte 0x05, packed to a vector and to the file path 0x62. -/
theorem claim_C8_witness :
    (bundle (vectored []) [⟨[97], 1, [5]⟩]).snd.backend.buf =
      (bundle (filed [98]) [⟨[97], 1, [5]⟩]).snd.backend.buf :=
  claim_C8_pack_deterministic [⟨[97], 1, [5]⟩] [98] (by decide)

/-- Claim C9 (counterexample): the claim is false as stated. Starting from
the default constructor and applying the vector overload of set_bytes (one of
the operations the claim lists) yields a record with a nonempty payload
buffer whose length differs from the size field, because that overload does
not update the size. -/
theorem claim_C9_counterexample :
    ([FileOp.opSetBytesVec [1]].foldl applyOp File.mk_empty).bytes ≠ [] ∧
    ([FileOp.opSetBytesVec [1]].foldl applyOp File.mk_empty).bytes.length ≠
      ([FileOp.opSetBytesVec [1]].foldl applyOp File.mk_empty).size := by
  decide

/-- Claim C9 (amended): every record built by a public constructor keeps the
materialized phase invariant (nonempty payload buffer has exactly the
declared size) under any sequence of set_name and pointer overload set_bytes
calls; the vector overload of set_bytes and set_size are excluded because
each updates only one side of the invariant. -/
theorem claim_C9_materialized_invariant (f0 : File) (h0 : Constructed f0)
    (ops : List FileOp) (hops : ∀ op ∈ ops, opSafe op = true)
    (hne : (ops.foldl applyOp f0).bytes ≠ []) :
    (ops.foldl applyOp f0).bytes.length = (ops.foldl applyOp f0).size :=
  foldl_applyOp_inv ops f0 (constructed_inv f0 h0) hops hne

/-- Claim C9 witness: a record built by the vector constructor and renamed
afterwards keeps its payload length equal to its size field. -/
theorem claim_C9_witness :
    ([FileOp.opSetName [97]].foldl applyOp (File.mk_vec [] [1, 2])).bytes.length =
      ([FileOp.opSetName [97]].foldl applyOp (File.mk_vec [] [1, 2])).size :=
  claim_C9_materialized_invariant (File.mk_vec [] [1, 2]) (Constructed.viaVec [] [1, 2])
    [FileOp.opSetName [97]] (by decide) (by decide)

/-- Claim C10: the package dispatch entry point debundles from the package
payload memory when the payload buffer is nonempty, otherwise from the file
named by the package when the name is nonempty, and otherwise returns the
empty list. -/
theorem claim_C10_package_dispatch (disk : List Nat → Option (List Nat)) (p_package : File) :
    (p_package.bytes.length > 0 →
      debundlePackage disk p_package = debundleMemToMem p_package.bytes) ∧
    (p_package.bytes.length = 0 → p_package.name.length ≠ 0 →
      debundlePackage disk p_package = debundleDiskToMem disk p_package.name) ∧
    (p_package.bytes.length = 0 → p_package.name.length = 0 →
      debundlePackage disk p_package = []) := by
  refine ⟨fun h => ?_, fun h hn => ?_, fun h hn => ?_⟩
  · simp [debundlePackage, h]
  · simp [debundlePackage, h, hn]
  · simp [debundlePackage, h, hn]

/-- Claim C10 witness: the three dispatch branches at concrete packages over
an empty abstract disk. -/
theorem claim_C10_witness :
    debundlePackage (fun _ => none) ⟨[], 0, [7]⟩ = debundleMemToMem [7] ∧
    debundlePackage (fun _ => none) ⟨[98], 0, []⟩ = debundleDiskToMem (fun _ => none) [98] ∧
    debundlePackage (fun _ => none) ⟨[], 0, []⟩ = [] :=
  ⟨(claim_C10_package_dispatch (fun _ => none) ⟨[], 0, [7]⟩).1 (by decide),
   (claim_C10_package_dispatch (fun _ => none) ⟨[98], 0, []⟩).2.1 (by decide) (by decide),
   (claim_C10_package_dispatch (fun _ => none) ⟨[], 0, []⟩).2.2 rfl rfl⟩

end file_bundler
